import Mathlib

/-!
Verification of the ONNX Gemm lowering
(src/Conversion/ONNXToKrnl/Math/Gemm.cpp, `ONNXGemmOpLowering::matchAndRewrite`).

The lowering emits, for a Gemm operator `Y = alpha * op(A) * op(B) + beta * C`,
a three-deep loop nest (n, m outer over the output, k inner over the reduction
dimension) with a scalar accumulator, transpose-aware access functions for A and
B, and a broadcast-aware access function for the optional bias C.

Two views of the same code are formalised:
* a semantic shallow embedding (`reductionVal`, `gemmStoredValue`, `lowerGemm`)
  computing the value the emitted code stores at output position (n, m), with
  the floating-point arithmetic of the emitted `MulFOp`/`AddFOp` modelled as
  exact arithmetic in a commutative ring;
* a syntactic deep embedding (`KExpr`, `KStmt`, `emitGemm`) of the emitted
  loop-nest structure, used for the claims about iteration structure and about
  the element types of the emitted arithmetic.
-/

namespace GemmLowering

/-- A dimension size as handed out by the shape service (`IndexExpr`): either a
compile-time literal or a symbolic (question-mark) dimension, identified by an
id and resolved at run time through an environment. -/
inductive SymDim where
  | lit : Int → SymDim
  | sym : Nat → SymDim
deriving DecidableEq, Repr

/-- Value of a dimension expression under an environment giving the run-time
value of each symbolic dimension. -/
def SymDim.eval (env : Nat → Int) : SymDim → Int
  | .lit v => v
  | .sym i => env i

/-- The A access function (Gemm.cpp lines 82-85):
`{k, n}` when `transA != 0`, `{n, k}` otherwise. -/
def aAccessFct (transA : Int) (n k : Nat) : Nat × Nat :=
  if transA ≠ 0 then (k, n) else (n, k)

/-- The B access function (Gemm.cpp lines 86-89):
`{m, k}` when `transB != 0`, `{k, m}` otherwise. -/
def bAccessFct (transB : Int) (m k : Nat) : Nat × Nat :=
  if transB ≠ 0 then (m, k) else (k, m)

/-- The value in the scalar reduction buffer `reductionVal` after the inner
`k` loop for output position (n, m) (Gemm.cpp lines 64-99): initialised to
zero, then once per k: `acc ← acc + A[aAccessFct] * B[bAccessFct]`. -/
def reductionVal {α : Type} [CommRing α] (transA transB : Int)
    (A B : Nat → Nat → α) (kBound : Nat) (n m : Nat) : α :=
  (List.range kBound).foldl
    (fun acc k =>
      acc + A (aAccessFct transA n k).1 (aAccessFct transA n k).2 *
            B (bAccessFct transB m k).1 (bAccessFct transB m k).2) 0

/-- The output access function `resAccessFct = {n, m}` (Gemm.cpp line 62). -/
def resAccessFct (n m : Nat) : List Nat := [n, m]

/-- One entry of the C access function (Gemm.cpp line 111):
`IndexExpr::select(dim > 1, resAccessFct[x], 0)`, evaluated under an
environment for symbolic dimensions. -/
def cSelect (env : Nat → Int) (dim : SymDim) (loopVar : Nat) : Nat :=
  if 1 < dim.eval env then loopVar else 0

/-- The C access function (Gemm.cpp lines 106-113): for each
`x` in `[2 - cRank, 2)`, select the loop variable when the right-aligned C
dimension is `> 1`, else the broadcast index 0. -/
def cAccessFct (env : Nat → Int) (cRank : Nat) (cDims : Nat → SymDim)
    (n m : Nat) : List Nat :=
  (List.range' (2 - cRank) cRank).map fun x =>
    cSelect env (cDims x) ((resAccessFct n m).getD x 0)

/-- The value stored into `res[n, m]` (Gemm.cpp lines 101-126):
`alphaAB = alpha * loadedAB`; with bias, `Y = alphaAB + beta * C[cAccessFct]`. -/
def gemmStoredValue {α : Type} [CommRing α] (env : Nat → Int)
    (alpha beta : α) (transA transB : Int) (A B : Nat → Nat → α)
    (hasBias : Bool) (C : List Nat → α) (cRank : Nat) (cDims : Nat → SymDim)
    (kBound : Nat) (n m : Nat) : α :=
  let loadedAB := reductionVal transA transB A B kBound n m
  let alphaAB := alpha * loadedAB
  if hasBias then alphaAB + beta * C (cAccessFct env cRank cDims n m)
  else alphaAB

/-- Output of the shape resolver consumed by the lowering: effective operand
dimensions, output dimensions, bias presence, bias rank and right-aligned bias
dimensions (`cDims x` for `x` in `[2 - cRank, 2)`). -/
structure GemmShapeHelper (δ : Type) where
  aDims : δ × δ
  bDims : δ × δ
  outputDims : δ × δ
  hasBias : Bool
  cRank : Nat
  cDims : Nat → δ

/-- Modelled from the spec: `ONNXGemmOpShapeHelper.Compute` (the shape
resolver) is not part of the analysed source; per spec §4.1, effective A is
`(A.dim1, A.dim0)` when `transA` is set and `(A.dim0, A.dim1)` otherwise
(symmetrically for B), the output shape is `(effective-A.rows,
effective-B.cols)`, and C's shape is right-aligned against the 2-D output. -/
def computeShapeHelper {δ : Type} (aShape bShape : δ × δ) (transA transB : Int)
    (cShape : Option (List δ)) (one : δ) : GemmShapeHelper δ :=
  let aD := if transA ≠ 0 then (aShape.2, aShape.1) else aShape
  let bD := if transB ≠ 0 then (bShape.2, bShape.1) else bShape
  let cs := cShape.getD []
  { aDims := aD
    bDims := bD
    outputDims := (aD.1, bD.2)
    hasBias := cShape.isSome
    cRank := cs.length
    cDims := fun x => cs.getD (x - (2 - cs.length)) one }

/-- The shape helper instance the lowering builds (Gemm.cpp lines 33-36),
over symbolic dimensions. -/
def gemmShape (aShape bShape : SymDim × SymDim) (transA transB : Int)
    (cShape : Option (List SymDim)) : GemmShapeHelper SymDim :=
  computeShapeHelper aShape bShape transA transB cShape (SymDim.lit 1)

/-- The complete lowering, semantically: the value the emitted code stores at
output position (n, m). The reduction bound is `shapeHelper.aDims[1]`
(Gemm.cpp line 73), evaluated under the environment. -/
def lowerGemm {α : Type} [CommRing α] (env : Nat → Int) (alpha beta : α)
    (transA transB : Int) (aShape bShape : SymDim × SymDim)
    (A B : Nat → Nat → α) (cShape : Option (List SymDim)) (C : List Nat → α)
    (n m : Nat) : α :=
  let sh := gemmShape aShape bShape transA transB cShape
  gemmStoredValue env alpha beta transA transB A B sh.hasBias C sh.cRank
    sh.cDims ((sh.aDims.2.eval env).toNat) n m

/-- Modelled from the spec: `op(M)` of the Gemm glossary entry
`Y = alpha*op(A)*op(B) + beta*C` — the effective (possibly transposed) view of
an operand, with no physical data movement. -/
def opMatrix {α : Type} (trans : Int) (M : Nat → Nat → α) : Nat → Nat → α :=
  fun i j => if trans ≠ 0 then M j i else M i j

/-! ## Deep embedding of the emitted Krnl program -/

/-- Floating-point element types of the lowered memrefs. -/
inductive FType where
  | f16 | f32 | f64
deriving DecidableEq, Repr

/-- The buffers the emitted code touches: the operands A, B, C, the output
allocation `res` (Gemm.cpp line 42), and the scalar accumulator `red`
(the `reductionVal` alloca, Gemm.cpp line 66). -/
inductive Buf where
  | bufA | bufB | bufC | res | red
deriving DecidableEq, Repr

/-- Index expressions of the emitted accesses: the three induction variables
(n, m, k), literals, and the `IndexExpr::select(dim > 1, t, f)` used for the
broadcast-aware C access (Gemm.cpp line 111). -/
inductive IdxE where
  | vN | vM | vK
  | litIdx (v : Nat)
  | selGT1 (d : SymDim) (t f : IdxE)
deriving DecidableEq, Repr

/-- Run-time value of an emitted index expression, given the environment for
symbolic dimensions and the current values of the induction variables. -/
def IdxE.eval (env : Nat → Int) (n m k : Nat) : IdxE → Nat
  | .vN => n
  | .vM => m
  | .vK => k
  | .litIdx v => v
  | .selGT1 d t f =>
      if 1 < d.eval env then t.eval env n m k else f.eval env n m k

/-- Emitted scalar expressions: typed float constants (`emitConstantOp`),
loads (`KrnlLoadOp` / `krnl_load`), `MulFOp` and `AddFOp`. -/
inductive KExpr where
  | cst (t : FType) (v : ℚ)
  | load (b : Buf) (idx : List IdxE)
  | mulf (a b : KExpr)
  | addf (a b : KExpr)
deriving Repr

/-- Emitted statements: a point store (`KrnlStoreOp` / `krnl_store`), a loop
over `[0, bound)` (`BuildKrnlLoop` with lower bound 0), and sequencing. -/
inductive KStmt where
  | store (b : Buf) (idx : List IdxE) (e : KExpr)
  | loop (bound : SymDim) (body : KStmt)
  | seq (s t : KStmt)
deriving Repr

/-- Static configuration of one Gemm lowering: element types of the operand
and output memrefs, the alpha/beta literals, the transpose attributes and the
operand shapes. -/
structure GemmCfg where
  elemTy : FType
  aTy : FType
  bTy : FType
  cTy : FType
  alphaLit : ℚ
  betaLit : ℚ
  transA : Int
  transB : Int
  aShape : SymDim × SymDim
  bShape : SymDim × SymDim
  cShape : Option (List SymDim)

/-- The shape helper computed for a configuration (Gemm.cpp lines 33-36). -/
def shapeOf (cfg : GemmCfg) : GemmShapeHelper SymDim :=
  gemmShape cfg.aShape cfg.bShape cfg.transA cfg.transB cfg.cShape

/-- The emitted C access, as index expressions (Gemm.cpp lines 106-113): one
`select(dim > 1, loop variable, 0)` per participating output dimension. -/
def cAccessIdxE (cRank : Nat) (cDims : Nat → SymDim) : List IdxE :=
  (List.range' (2 - cRank) cRank).map fun x =>
    IdxE.selGT1 (cDims x) ([IdxE.vN, IdxE.vM].getD x (IdxE.litIdx 0))
      (IdxE.litIdx 0)

/-- The program emitted by `ONNXGemmOpLowering::matchAndRewrite`
(Gemm.cpp lines 52-126): two output loops over n and m; inside them the
accumulator is zero-initialised, the inner k loop (bound
`shapeHelper.aDims[1]`) performs the multiply-accumulate, and after it the
final value `alpha * acc` (plus `beta * C` when the bias is present) is stored
into `res[n, m]`. -/
def emitGemm (cfg : GemmCfg) : KStmt :=
  let sh := shapeOf cfg
  let aIdx : List IdxE :=
    if cfg.transA ≠ 0 then [IdxE.vK, IdxE.vN] else [IdxE.vN, IdxE.vK]
  let bIdx : List IdxE :=
    if cfg.transB ≠ 0 then [IdxE.vM, IdxE.vK] else [IdxE.vK, IdxE.vM]
  let innerBody : KStmt :=
    .store .red []
      (.addf (.load .red []) (.mulf (.load .bufA aIdx) (.load .bufB bIdx)))
  let finalStmt : KStmt :=
    if sh.hasBias then
      .store .res [IdxE.vN, IdxE.vM]
        (.addf (.mulf (.cst cfg.elemTy cfg.alphaLit) (.load .red []))
          (.mulf (.cst cfg.elemTy cfg.betaLit)
            (.load .bufC (cAccessIdxE sh.cRank sh.cDims))))
    else
      .store .res [IdxE.vN, IdxE.vM]
        (.mulf (.cst cfg.elemTy cfg.alphaLit) (.load .red []))
  .loop sh.outputDims.1 (.loop sh.outputDims.2
    (.seq (.store .red [] (.cst cfg.elemTy 0))
      (.seq (.loop sh.aDims.2 innerBody) finalStmt)))

/-- Loop bounds occurring in a statement, each paired with its nesting
depth, in emission order. -/
def loopBoundsWithDepth (d : Nat) : KStmt → List (Nat × SymDim)
  | .store _ _ _ => []
  | .loop b s => (d, b) :: loopBoundsWithDepth (d + 1) s
  | .seq s t => loopBoundsWithDepth d s ++ loopBoundsWithDepth d t

/-- Number of loads of a given buffer in an expression. -/
def countLoadsE (b : Buf) : KExpr → Nat
  | .cst _ _ => 0
  | .load b2 _ => if b2 = b then 1 else 0
  | .mulf x y => countLoadsE b x + countLoadsE b y
  | .addf x y => countLoadsE b x + countLoadsE b y

/-- Number of loads of a given buffer in a statement (per execution of the
statement body once). -/
def countLoads (b : Buf) : KStmt → Nat
  | .store _ _ e => countLoadsE b e
  | .loop _ s => countLoads b s
  | .seq s t => countLoads b s + countLoads b t

/-- Number of stores to a given buffer in a statement. -/
def countStores (b : Buf) : KStmt → Nat
  | .store b2 _ _ => if b2 = b then 1 else 0
  | .loop _ s => countStores b s
  | .seq s t => countStores b s + countStores b t

/-- Element type of each buffer: the output allocation and the accumulator
alloca use the output element type (Gemm.cpp lines 41, 66-67); the operand
buffers carry their own memref element types. -/
def bufTy (cfg : GemmCfg) : Buf → FType
  | .bufA => cfg.aTy
  | .bufB => cfg.bTy
  | .bufC => cfg.cTy
  | .res => cfg.elemTy
  | .red => cfg.elemTy

/-- Type of an emitted expression; `MulFOp`/`AddFOp` require equal operand
types and produce that type, otherwise the expression is ill-typed. -/
def typeOf (cfg : GemmCfg) : KExpr → Option FType
  | .cst t _ => some t
  | .load b _ => some (bufTy cfg b)
  | .mulf a b =>
      match typeOf cfg a, typeOf cfg b with
      | some t, some u => if t = u then some t else none
      | _, _ => none
  | .addf a b =>
      match typeOf cfg a, typeOf cfg b with
      | some t, some u => if t = u then some t else none
      | _, _ => none

/-- Types of every arithmetic (`MulFOp`/`AddFOp`) node in an expression. -/
def arithTys (cfg : GemmCfg) : KExpr → List (Option FType)
  | .cst _ _ => []
  | .load _ _ => []
  | .mulf a b => typeOf cfg (.mulf a b) :: (arithTys cfg a ++ arithTys cfg b)
  | .addf a b => typeOf cfg (.addf a b) :: (arithTys cfg a ++ arithTys cfg b)

/-- Types of every emitted constant in an expression. -/
def cstTys : KExpr → List FType
  | .cst t _ => [t]
  | .load _ _ => []
  | .mulf a b => cstTys a ++ cstTys b
  | .addf a b => cstTys a ++ cstTys b

/-- Types of every arithmetic node in a statement. -/
def stmtArithTys (cfg : GemmCfg) : KStmt → List (Option FType)
  | .store _ _ e => arithTys cfg e
  | .loop _ s => stmtArithTys cfg s
  | .seq s t => stmtArithTys cfg s ++ stmtArithTys cfg t

/-- Types of every emitted constant in a statement. -/
def stmtCstTys : KStmt → List FType
  | .store _ _ e => cstTys e
  | .loop _ s => stmtCstTys s
  | .seq s t => stmtCstTys s ++ stmtCstTys t

/-! ## Concrete example inputs for the spec's scenarios -/

/-- A = [[1, 2], [3, 4]]. -/
def exA : Nat → Nat → ℤ := fun i j => ([[1, 2], [3, 4]].getD i []).getD j 0

/-- B = [[5, 6], [7, 8]]. -/
def exB : Nat → Nat → ℤ := fun i j => ([[5, 6], [7, 8]].getD i []).getD j 0

/-- The all-ones bias C = [[1, 1], [1, 1]] (any access yields 1). -/
def exCones : List Nat → ℤ := fun _ => 1

/-- A placeholder C operand for lowerings without bias (never read). -/
def exCabsent : List Nat → ℤ := fun _ => 0

/-- An environment with no symbolic dimensions. -/
def exEnv : Nat → Int := fun _ => 0

/-- A concrete all-static f32 configuration (2x2 matrices, bias present). -/
def exCfg : GemmCfg :=
  { elemTy := .f32, aTy := .f32, bTy := .f32, cTy := .f32
    alphaLit := 2, betaLit := 3, transA := 0, transB := 0
    aShape := (SymDim.lit 2, SymDim.lit 2)
    bShape := (SymDim.lit 2, SymDim.lit 2)
    cShape := some [SymDim.lit 2, SymDim.lit 2] }

/-! ## Helper lemmas -/

/-- Folding `acc + f k` over `List.range K` starting from zero is the sum of
`f` over `Finset.range K`. -/
theorem list_range_foldl_add {α : Type} [AddCommMonoid α] (f : Nat → α)
    (K : Nat) :
    (List.range K).foldl (fun acc k => acc + f k) 0
      = ∑ k in Finset.range K, f k := by
  induction K with
  | zero => simp
  | succ K ih =>
      rw [List.range_succ, List.foldl_append, Finset.sum_range_succ, ih]
      rfl

/-- The accumulator after the inner loop is the sum over the reduction range
of the products of the accessed A and B elements. -/
theorem reductionVal_eq_sum {α : Type} [CommRing α] (transA transB : Int)
    (A B : Nat → Nat → α) (kBound : Nat) (n m : Nat) :
    reductionVal transA transB A B kBound n m
      = ∑ k in Finset.range kBound,
          A (aAccessFct transA n k).1 (aAccessFct transA n k).2 *
            B (bAccessFct transB m k).1 (bAccessFct transB m k).2 := by
  unfold reductionVal
  exact list_range_foldl_add _ kBound

/-- Evaluating the emitted C access index expressions agrees with the
semantic C access function. -/
theorem cAccessIdxE_eval (env : Nat → Int) (cRank : Nat)
    (cDims : Nat → SymDim) (n m k : Nat) :
    (cAccessIdxE cRank cDims).map (IdxE.eval env n m k)
      = cAccessFct env cRank cDims n m := by
  unfold cAccessIdxE cAccessFct
  rw [List.map_map]
  refine List.map_congr_left fun x _ => ?_
  rcases x with _ | _ | x <;>
    simp [IdxE.eval, cSelect, resAccessFct, List.getD]

/-- For a validated bias dimension (size 1 or equal to the output dimension
the loop variable ranges over), the emitted `dim > 1` selection coincides with
the spec's `size = 1` broadcast classification. -/
theorem cSelect_valid (env : Nat → Int) (d : SymDim) (lv : Nat) (bound : Int)
    (hv : d.eval env = 1 ∨ d.eval env = bound) (hlt : lv < bound.toNat) :
    cSelect env d lv = if d.eval env = 1 then 0 else lv := by
  unfold cSelect
  rcases hv with h | h <;> split_ifs <;> omega

/-! ## Claims -/

/-- C1: for every valid Gemm instance with `transA = false`, `transB = false`
and no bias operand, the emitted computation stores, for every n in
[0, output.rows) and m in [0, output.cols),
`output[n, m] = alpha * Σ_k A[n, k] * B[k, m]`; in particular for
A = [[1,2],[3,4]], B = [[5,6],[7,8]], alpha = 1, beta = 0 the output is
[[19,22],[43,50]]. -/
theorem gemm_noTrans_noBias_correct {α : Type} [CommRing α] (env : Nat → Int)
    (alpha beta : α) (aShape bShape : SymDim × SymDim)
    (A B : Nat → Nat → α) (C : List Nat → α) (n m : Nat)
    (hn : n < (((gemmShape aShape bShape 0 0 none).outputDims.1).eval env).toNat)
    (hm : m < (((gemmShape aShape bShape 0 0 none).outputDims.2).eval env).toNat) :
    lowerGemm env alpha beta 0 0 aShape bShape A B none C n m
      = alpha * ∑ k in Finset.range ((aShape.2.eval env).toNat), A n k * B k m
    ∧ (lowerGemm exEnv (1 : ℤ) 0 0 0 (SymDim.lit 2, SymDim.lit 2)
          (SymDim.lit 2, SymDim.lit 2) exA exB none exCabsent 0 0 = 19
        ∧ lowerGemm exEnv (1 : ℤ) 0 0 0 (SymDim.lit 2, SymDim.lit 2)
          (SymDim.lit 2, SymDim.lit 2) exA exB none exCabsent 0 1 = 22
        ∧ lowerGemm exEnv (1 : ℤ) 0 0 0 (SymDim.lit 2, SymDim.lit 2)
          (SymDim.lit 2, SymDim.lit 2) exA exB none exCabsent 1 0 = 43
        ∧ lowerGemm exEnv (1 : ℤ) 0 0 0 (SymDim.lit 2, SymDim.lit 2)
          (SymDim.lit 2, SymDim.lit 2) exA exB none exCabsent 1 1 = 50) := by
  constructor
  · have h1 : lowerGemm env alpha beta 0 0 aShape bShape A B none C n m
        = alpha * reductionVal 0 0 A B ((aShape.2.eval env).toNat) n m := by
      simp [lowerGemm, gemmShape, computeShapeHelper, gemmStoredValue]
    rw [h1, reductionVal_eq_sum]
    simp [aAccessFct, bAccessFct]
  · exact ⟨by decide, by decide, by decide, by decide⟩

/-- Witness for C1 at A = [[1,2],[3,4]], B = [[5,6],[7,8]], alpha = 5,
n = 1, m = 0. -/
theorem gemm_noTrans_noBias_correct_witness :
    lowerGemm exEnv (5 : ℤ) 0 0 0 (SymDim.lit 2, SymDim.lit 2)
        (SymDim.lit 2, SymDim.lit 2) exA exB none exCabsent 1 0
      = 5 * ∑ k in Finset.range 2, exA 1 k * exB k 0
    ∧ (lowerGemm exEnv (1 : ℤ) 0 0 0 (SymDim.lit 2, SymDim.lit 2)
          (SymDim.lit 2, SymDim.lit 2) exA exB none exCabsent 0 0 = 19
        ∧ lowerGemm exEnv (1 : ℤ) 0 0 0 (SymDim.lit 2, SymDim.lit 2)
          (SymDim.lit 2, SymDim.lit 2) exA exB none exCabsent 0 1 = 22
        ∧ lowerGemm exEnv (1 : ℤ) 0 0 0 (SymDim.lit 2, SymDim.lit 2)
          (SymDim.lit 2, SymDim.lit 2) exA exB none exCabsent 1 0 = 43
        ∧ lowerGemm exEnv (1 : ℤ) 0 0 0 (SymDim.lit 2, SymDim.lit 2)
          (SymDim.lit 2, SymDim.lit 2) exA exB none exCabsent 1 1 = 50) :=
  gemm_noTrans_noBias_correct exEnv 5 0 (SymDim.lit 2, SymDim.lit 2)
    (SymDim.lit 2, SymDim.lit 2) exA exB exCabsent 1 0 (by decide) (by decide)

/-- C2: for every Gemm instance and every (n, m, k) iteration, under each of
the four combinations of `transA` and `transB`, the element of A read is at
index (k, n) when `transA` is set and (n, k) otherwise, and the element of B
read is at index (m, k) when `transB` is set and (k, m) otherwise. -/
theorem gemm_access_transpose (transA transB : Int) (n m k : Nat) :
    (transA ≠ 0 → aAccessFct transA n k = (k, n)) ∧
    (transA = 0 → aAccessFct transA n k = (n, k)) ∧
    (transB ≠ 0 → bAccessFct transB m k = (m, k)) ∧
    (transB = 0 → bAccessFct transB m k = (k, m)) := by
  refine ⟨fun h => ?_, fun h => ?_, fun h => ?_, fun h => ?_⟩ <;>
    simp [aAccessFct, bAccessFct, h]

/-- Witness for C2 at n = 5, m = 6, k = 7, exercising all four transpose
combinations. -/
theorem gemm_access_transpose_witness :
    aAccessFct 1 5 7 = (7, 5) ∧ aAccessFct 0 5 7 = (5, 7)
    ∧ bAccessFct (-2) 6 7 = (6, 7) ∧ bAccessFct 0 6 7 = (7, 6) :=
  ⟨(gemm_access_transpose 1 0 5 6 7).1 (by decide),
   (gemm_access_transpose 0 0 5 6 7).2.1 rfl,
   (gemm_access_transpose 0 (-2) 5 6 7).2.2.1 (by decide),
   (gemm_access_transpose 0 0 5 6 7).2.2.2 rfl⟩

/-- C7: for every A, B, alpha and every beta, the computation lowered with no
C operand (beta ignored entirely) agrees with the computation lowered with a
present all-zero C of a broadcast-compatible shape and that arbitrary beta
(arithmetic modelled exactly). -/
theorem gemm_bias_absence_idempotence {α : Type} [CommRing α]
    (env : Nat → Int) (alpha beta beta' : α) (transA transB : Int)
    (aShape bShape : SymDim × SymDim) (A B : Nat → Nat → α)
    (cs : List SymDim) (C : List Nat → α) (n m : Nat) :
    lowerGemm env alpha beta transA transB aShape bShape A B none C n m
      = lowerGemm env alpha beta' transA transB aShape bShape A B (some cs)
          (fun _ => (0 : α)) n m := by
  simp [lowerGemm, gemmShape, computeShapeHelper, gemmStoredValue]

/-- C4: for every Gemm instance with a present bias C, after the reduction
loop completes for an (n, m) pair, the value stored at output[n, m] equals
`alpha * accumulator + beta * C[c_access]` with `c_access` resolved per the
broadcast plan; in particular for A = [[1,2],[3,4]], B = [[5,6],[7,8]],
alpha = 2, beta = 3, C = [[1,1],[1,1]] the output is [[41,47],[89,103]]. -/
theorem gemm_bias_combination {α : Type} [CommRing α] (env : Nat → Int)
    (alpha beta : α) (transA transB : Int) (aShape bShape : SymDim × SymDim)
    (A B : Nat → Nat → α) (cs : List SymDim) (C : List Nat → α) (n m : Nat)
    (hn : n < (((gemmShape aShape bShape transA transB
        (some cs)).outputDims.1).eval env).toNat)
    (hm : m < (((gemmShape aShape bShape transA transB
        (some cs)).outputDims.2).eval env).toNat) :
    lowerGemm env alpha beta transA transB aShape bShape A B (some cs) C n m
      = alpha * reductionVal transA transB A B
          ((((gemmShape aShape bShape transA transB
              (some cs)).aDims.2).eval env).toNat) n m
        + beta * C (cAccessFct env
            (gemmShape aShape bShape transA transB (some cs)).cRank
            (gemmShape aShape bShape transA transB (some cs)).cDims n m)
    ∧ (lowerGemm exEnv (2 : ℤ) 3 0 0 (SymDim.lit 2, SymDim.lit 2)
          (SymDim.lit 2, SymDim.lit 2) exA exB
          (some [SymDim.lit 2, SymDim.lit 2]) exCones 0 0 = 41
        ∧ lowerGemm exEnv (2 : ℤ) 3 0 0 (SymDim.lit 2, SymDim.lit 2)
          (SymDim.lit 2, SymDim.lit 2) exA exB
          (some [SymDim.lit 2, SymDim.lit 2]) exCones 0 1 = 47
        ∧ lowerGemm exEnv (2 : ℤ) 3 0 0 (SymDim.lit 2, SymDim.lit 2)
          (SymDim.lit 2, SymDim.lit 2) exA exB
          (some [SymDim.lit 2, SymDim.lit 2]) exCones 1 0 = 89
        ∧ lowerGemm exEnv (2 : ℤ) 3 0 0 (SymDim.lit 2, SymDim.lit 2)
          (SymDim.lit 2, SymDim.lit 2) exA exB
          (some [SymDim.lit 2, SymDim.lit 2]) exCones 1 1 = 103) := by
  constructor
  · simp [lowerGemm, gemmShape, computeShapeHelper, gemmStoredValue]
  · exact ⟨by decide, by decide, by decide, by decide⟩

/-- Witness for C4 at the spec's bias scenario, n = 0, m = 1. -/
theorem gemm_bias_combination_witness :
    lowerGemm exEnv (2 : ℤ) 3 0 0 (SymDim.lit 2, SymDim.lit 2)
        (SymDim.lit 2, SymDim.lit 2) exA exB
        (some [SymDim.lit 2, SymDim.lit 2]) exCones 0 1
      = 2 * reductionVal 0 0 exA exB 2 0 1
        + 3 * exCones (cAccessFct exEnv 2
            (gemmShape (SymDim.lit 2, SymDim.lit 2) (SymDim.lit 2, SymDim.lit 2)
              0 0 (some [SymDim.lit 2, SymDim.lit 2])).cDims 0 1)
    ∧ (lowerGemm exEnv (2 : ℤ) 3 0 0 (SymDim.lit 2, SymDim.lit 2)
          (SymDim.lit 2, SymDim.lit 2) exA exB
          (some [SymDim.lit 2, SymDim.lit 2]) exCones 0 0 = 41
        ∧ lowerGemm exEnv (2 : ℤ) 3 0 0 (SymDim.lit 2, SymDim.lit 2)
          (SymDim.lit 2, SymDim.lit 2) exA exB
          (some [SymDim.lit 2, SymDim.lit 2]) exCones 0 1 = 47
        ∧ lowerGemm exEnv (2 : ℤ) 3 0 0 (SymDim.lit 2, SymDim.lit 2)
          (SymDim.lit 2, SymDim.lit 2) exA exB
          (some [SymDim.lit 2, SymDim.lit 2]) exCones 1 0 = 89
        ∧ lowerGemm exEnv (2 : ℤ) 3 0 0 (SymDim.lit 2, SymDim.lit 2)
          (SymDim.lit 2, SymDim.lit 2) exA exB
          (some [SymDim.lit 2, SymDim.lit 2]) exCones 1 1 = 103) :=
  gemm_bias_combination exEnv 2 3 0 0 (SymDim.lit 2, SymDim.lit 2)
    (SymDim.lit 2, SymDim.lit 2) exA exB [SymDim.lit 2, SymDim.lit 2]
    exCones 0 1 (by decide) (by decide)

/-- C8: for every Gemm instance whose reduction dimension size is 1, the inner
loop performs exactly one iteration (the accumulator equals the single
product), and the stored output equals `alpha * op(A)[n,0] * op(B)[0,m]` plus,
when the bias is present, beta times the broadcast-resolved C value (A and B
read through the effective, possibly transposed, views). -/
theorem gemm_scalar_degeneracy {α : Type} [CommRing α] (env : Nat → Int)
    (alpha beta : α) (transA transB : Int) (aShape bShape : SymDim × SymDim)
    (A B : Nat → Nat → α) (cShape : Option (List SymDim)) (C : List Nat → α)
    (n m : Nat)
    (hk : ((((gemmShape aShape bShape transA transB
        cShape).aDims.2).eval env).toNat) = 1) :
    reductionVal transA transB A B
        ((((gemmShape aShape bShape transA transB
            cShape).aDims.2).eval env).toNat) n m
      = opMatrix transA A n 0 * opMatrix transB B 0 m
    ∧ lowerGemm env alpha beta transA transB aShape bShape A B cShape C n m
      = alpha * (opMatrix transA A n 0 * opMatrix transB B 0 m)
        + (if cShape.isSome then
             beta * C (cAccessFct env
               (gemmShape aShape bShape transA transB cShape).cRank
               (gemmShape aShape bShape transA transB cShape).cDims n m)
           else 0) := by
  have h1 : reductionVal transA transB A B 1 n m
      = opMatrix transA A n 0 * opMatrix transB B 0 m := by
    rcases eq_or_ne transA 0 with hA | hA <;>
      rcases eq_or_ne transB 0 with hB | hB <;>
        simp [reductionVal, aAccessFct, bAccessFct, opMatrix, hA, hB,
          List.range_succ]
  refine ⟨by rw [hk]; exact h1, ?_⟩
  cases cShape with
  | none =>
      have h2 : lowerGemm env alpha beta transA transB aShape bShape A B
            none C n m
          = alpha * reductionVal transA transB A B
              ((((gemmShape aShape bShape transA transB
                  none).aDims.2).eval env).toNat) n m := by
        simp [lowerGemm, gemmShape, computeShapeHelper, gemmStoredValue]
      rw [h2, hk, h1]
      simp
  | some cs =>
      have h2 : lowerGemm env alpha beta transA transB aShape bShape A B
            (some cs) C n m
          = alpha * reductionVal transA transB A B
              ((((gemmShape aShape bShape transA transB
                  (some cs)).aDims.2).eval env).toNat) n m
            + beta * C (cAccessFct env
                (gemmShape aShape bShape transA transB (some cs)).cRank
                (gemmShape aShape bShape transA transB (some cs)).cDims n m) := by
        simp [lowerGemm, gemmShape, computeShapeHelper, gemmStoredValue]
      rw [h2, hk, h1]
      simp

/-- Witness for C8: A of effective shape 2x1, B of effective shape 1x2
(reduction dimension 1), no bias, alpha = 2, n = 1, m = 0. -/
theorem gemm_scalar_degeneracy_witness :
    reductionVal 0 0 exA exB 1 1 0 = opMatrix 0 exA 1 0 * opMatrix 0 exB 0 0
    ∧ lowerGemm exEnv (2 : ℤ) 3 0 0 (SymDim.lit 2, SymDim.lit 1)
        (SymDim.lit 1, SymDim.lit 2) exA exB none exCabsent 1 0
      = 2 * (opMatrix 0 exA 1 0 * opMatrix 0 exB 0 0) + 0 :=
  gemm_scalar_degeneracy exEnv 2 3 0 0 (SymDim.lit 2, SymDim.lit 1)
    (SymDim.lit 1, SymDim.lit 2) exA exB none exCabsent 1 0 (by decide)

/-- C10: the transpose behaviour is selected by comparing the `transA` and
`transB` attributes against zero: every nonzero attribute value selects the
transposed access pattern, zero selects the untransposed one, and the lowering
computes the same result for any two nonzero values. -/
theorem gemm_transpose_nonzero {α : Type} [CommRing α] (env : Nat → Int)
    (alpha beta : α) (t t' u u' : Int) (aShape bShape : SymDim × SymDim)
    (A B : Nat → Nat → α) (cShape : Option (List SymDim)) (C : List Nat → α)
    (n m k : Nat)
    (ht : t ≠ 0) (ht' : t' ≠ 0) (hu : u ≠ 0) (hu' : u' ≠ 0) :
    aAccessFct t n k = (k, n) ∧ aAccessFct 0 n k = (n, k)
    ∧ bAccessFct u m k = (m, k) ∧ bAccessFct 0 m k = (k, m)
    ∧ lowerGemm env alpha beta t u aShape bShape A B cShape C n m
      = lowerGemm env alpha beta t' u' aShape bShape A B cShape C n m := by
  refine ⟨by simp [aAccessFct, ht], by simp [aAccessFct],
    by simp [bAccessFct, hu], by simp [bAccessFct], ?_⟩
  simp [lowerGemm, gemmShape, computeShapeHelper, gemmStoredValue,
    reductionVal, aAccessFct, bAccessFct, cAccessFct, ht, ht', hu, hu']

/-- Witness for C10 with nonzero attribute values 1, -3, 2, 7 on the concrete
2x2 instance. -/
theorem gemm_transpose_nonzero_witness :
    aAccessFct 1 0 1 = (1, 0) ∧ aAccessFct 0 0 1 = (0, 1)
    ∧ bAccessFct 2 1 1 = (1, 1) ∧ bAccessFct 0 1 1 = (1, 1)
    ∧ lowerGemm exEnv (1 : ℤ) 0 1 2 (SymDim.lit 2, SymDim.lit 2)
        (SymDim.lit 2, SymDim.lit 2) exA exB none exCabsent 0 1
      = lowerGemm exEnv (1 : ℤ) 0 (-3) 7 (SymDim.lit 2, SymDim.lit 2)
        (SymDim.lit 2, SymDim.lit 2) exA exB none exCabsent 0 1 :=
  gemm_transpose_nonzero exEnv 1 0 1 (-3) 2 7 (SymDim.lit 2, SymDim.lit 2)
    (SymDim.lit 2, SymDim.lit 2) exA exB none exCabsent 0 1 1
    (by decide) (by decide) (by decide) (by decide)

/-- C5: for every Gemm instance, the emitted iteration structure is exactly
three nested loop levels in the fixed order n (over [0, output.rows)), m
(over [0, output.cols)), k innermost (over [0, reduction dimension size), the
reduction dimension being effective A's column count `aDims.2`); the scalar
accumulator is zero-initialised before the k loop for each (n, m), updated
once per (n, m, k) as `acc + A[a_access] * B[b_access]`, and consumed exactly
once after the k loop. -/
theorem gemm_loop_structure (cfg : GemmCfg) :
    ∃ innerBody finalStmt,
      emitGemm cfg
        = .loop (shapeOf cfg).outputDims.1 (.loop (shapeOf cfg).outputDims.2
            (.seq (.store .red [] (.cst cfg.elemTy 0))
              (.seq (.loop (shapeOf cfg).aDims.2 innerBody) finalStmt)))
      ∧ loopBoundsWithDepth 0 (emitGemm cfg)
          = [(0, (shapeOf cfg).outputDims.1), (1, (shapeOf cfg).outputDims.2),
             (2, (shapeOf cfg).aDims.2)]
      ∧ (∃ aIdx bIdx, innerBody = .store .red []
            (.addf (.load .red [])
              (.mulf (.load .bufA aIdx) (.load .bufB bIdx))))
      ∧ countStores .red innerBody = 1 ∧ countLoadsE .red
          (.addf (.load .red [])
            (.mulf (.load .bufA []) (.load .bufB []))) = 1
      ∧ countLoads .red innerBody = 1
      ∧ countLoads .red finalStmt = 1 ∧ countStores .red finalStmt = 0
      ∧ countStores .res finalStmt = 1 := by
  obtain ⟨eT, aT, bT, cT, al, be, tA, tB, aSh, bSh, cSh⟩ := cfg
  cases cSh with
  | none =>
      exact ⟨_, _, rfl, rfl, ⟨_, _, rfl⟩, rfl, rfl, rfl, rfl, rfl, rfl⟩
  | some cs =>
      exact ⟨_, _, rfl, rfl, ⟨_, _, rfl⟩, rfl, rfl, rfl, rfl, rfl, rfl⟩

/-- C6: for every Gemm instance whose operand element types match the output's
declared element type (the operator's type constraint), every arithmetic node
(`MulFOp`/`AddFOp`: the multiply-accumulate, the alpha scaling and the
`beta * C` combination) of the emitted program is well-typed at exactly the
output element type, and every emitted constant — including the alpha and beta
materialisations and the accumulator's zero — has that type. -/
theorem gemm_arith_in_elem_type (cfg : GemmCfg)
    (ha : cfg.aTy = cfg.elemTy) (hb : cfg.bTy = cfg.elemTy)
    (hc : cfg.cTy = cfg.elemTy) :
    (∀ t ∈ stmtArithTys cfg (emitGemm cfg), t = some cfg.elemTy) ∧
    (∀ t ∈ stmtCstTys (emitGemm cfg), t = cfg.elemTy) := by
  obtain ⟨eT, aT, bT, cT, al, be, tA, tB, aSh, bSh, cSh⟩ := cfg
  simp only at ha hb hc
  subst ha hb hc
  cases cSh <;>
    simp [emitGemm, shapeOf, gemmShape, computeShapeHelper, stmtArithTys,
      arithTys, typeOf, bufTy, cstTys, stmtCstTys, cAccessIdxE]

/-- Witness for C6 at the all-static all-f32 configuration. -/
theorem gemm_arith_in_elem_type_witness :
    (∀ t ∈ stmtArithTys exCfg (emitGemm exCfg), t = some FType.f32) ∧
    (∀ t ∈ stmtCstTys (emitGemm exCfg), t = FType.f32) :=
  gemm_arith_in_elem_type exCfg rfl rfl rfl

/-- C3: for every (upstream-validated) Gemm instance with a present bias C
and each of the two output dimensions, the C access index is 0 when the
corresponding right-aligned C dimension's size is exactly 1 and is the
matching output loop variable otherwise; when C has rank 1 only the last
output dimension participates and C is accessed with a single index. -/
theorem gemm_bias_broadcast_plan (env : Nat → Int)
    (aShape bShape : SymDim × SymDim) (transA transB : Int)
    (cs : List SymDim) (sh : GemmShapeHelper SymDim) (n m : Nat)
    (hsh : sh = gemmShape aShape bShape transA transB (some cs))
    (hrank : cs.length ≤ 2)
    (hn : n < ((sh.outputDims.1).eval env).toNat)
    (hm : m < ((sh.outputDims.2).eval env).toNat)
    (hvalid : ∀ x, x < 2 → 2 - sh.cRank ≤ x →
        ((sh.cDims x).eval env = 1 ∨
          (sh.cDims x).eval env
            = ((if x = 0 then sh.outputDims.1 else sh.outputDims.2).eval env))) :
    cAccessFct env sh.cRank sh.cDims n m
      = (List.range' (2 - sh.cRank) sh.cRank).map
          (fun x => if (sh.cDims x).eval env = 1 then 0
                    else (resAccessFct n m).getD x 0)
    ∧ (sh.cRank = 1 →
        cAccessFct env sh.cRank sh.cDims n m
          = [if (sh.cDims 1).eval env = 1 then 0 else m]) := by
  subst hsh
  rcases cs with _ | ⟨d1, _ | ⟨d2, _ | ⟨d3, rest⟩⟩⟩
  · exact ⟨rfl, fun h => absurd h (by decide : ¬(0 : Nat) = 1)⟩
  · constructor
    · show [cSelect env d1 m] = [if SymDim.eval env d1 = 1 then 0 else m]
      rw [cSelect_valid env d1 m
        (((gemmShape aShape bShape transA transB
            (some [d1])).outputDims.2).eval env)
        (hvalid 1 (by decide : (1 : Nat) < 2) (by decide : (1 : Nat) ≤ 1)) hm]
    · intro _
      show [cSelect env d1 m] = [if SymDim.eval env d1 = 1 then 0 else m]
      rw [cSelect_valid env d1 m
        (((gemmShape aShape bShape transA transB
            (some [d1])).outputDims.2).eval env)
        (hvalid 1 (by decide : (1 : Nat) < 2) (by decide : (1 : Nat) ≤ 1)) hm]
  · constructor
    · show [cSelect env d1 n, cSelect env d2 m]
        = [if SymDim.eval env d1 = 1 then 0 else n,
           if SymDim.eval env d2 = 1 then 0 else m]
      rw [cSelect_valid env d1 n
          (((gemmShape aShape bShape transA transB
              (some [d1, d2])).outputDims.1).eval env)
          (hvalid 0 (by decide : (0 : Nat) < 2) (by decide : (0 : Nat) ≤ 0)) hn,
        cSelect_valid env d2 m
          (((gemmShape aShape bShape transA transB
              (some [d1, d2])).outputDims.2).eval env)
          (hvalid 1 (by decide : (1 : Nat) < 2) (by decide : (0 : Nat) ≤ 1)) hm]
    · intro h
      exact absurd h (by decide : ¬(2 : Nat) = 1)
  · exfalso
    simp at hrank

/-- Witness for C3: output 2x4 with C of shape 1x4 (row-broadcast), accessed
at n = 1, m = 2, yielding the access [0, 2]. -/
theorem gemm_bias_broadcast_plan_witness :
    cAccessFct exEnv
        (gemmShape (SymDim.lit 2, SymDim.lit 3) (SymDim.lit 3, SymDim.lit 4)
          0 0 (some [SymDim.lit 1, SymDim.lit 4])).cRank
        (gemmShape (SymDim.lit 2, SymDim.lit 3) (SymDim.lit 3, SymDim.lit 4)
          0 0 (some [SymDim.lit 1, SymDim.lit 4])).cDims 1 2
      = (List.range' (2 - (gemmShape (SymDim.lit 2, SymDim.lit 3)
            (SymDim.lit 3, SymDim.lit 4) 0 0
            (some [SymDim.lit 1, SymDim.lit 4])).cRank)
          (gemmShape (SymDim.lit 2, SymDim.lit 3) (SymDim.lit 3, SymDim.lit 4)
            0 0 (some [SymDim.lit 1, SymDim.lit 4])).cRank).map
          (fun x => if ((gemmShape (SymDim.lit 2, SymDim.lit 3)
                (SymDim.lit 3, SymDim.lit 4) 0 0
                (some [SymDim.lit 1, SymDim.lit 4])).cDims x).eval exEnv = 1
              then 0 else (resAccessFct 1 2).getD x 0)
    ∧ ((gemmShape (SymDim.lit 2, SymDim.lit 3) (SymDim.lit 3, SymDim.lit 4)
          0 0 (some [SymDim.lit 1, SymDim.lit 4])).cRank = 1 →
        cAccessFct exEnv
            (gemmShape (SymDim.lit 2, SymDim.lit 3) (SymDim.lit 3, SymDim.lit 4)
              0 0 (some [SymDim.lit 1, SymDim.lit 4])).cRank
            (gemmShape (SymDim.lit 2, SymDim.lit 3) (SymDim.lit 3, SymDim.lit 4)
              0 0 (some [SymDim.lit 1, SymDim.lit 4])).cDims 1 2
          = [if ((gemmShape (SymDim.lit 2, SymDim.lit 3)
                (SymDim.lit 3, SymDim.lit 4) 0 0
                (some [SymDim.lit 1, SymDim.lit 4])).cDims 1).eval exEnv = 1
              then 0 else 2]) :=
  gemm_bias_broadcast_plan exEnv (SymDim.lit 2, SymDim.lit 3)
    (SymDim.lit 3, SymDim.lit 4) 0 0 [SymDim.lit 1, SymDim.lit 4] _ 1 2 rfl
    (by decide) (by decide) (by decide) (by decide)

/-- C9: the emitted broadcast test is `dim > 1` (not an equality with 1): for
a nonzero loop index the access index is 0 exactly when the dimension value is
at most 1, so a size-0 C dimension is classified as broadcast; for a symbolic
dimension the emitted access is a select over the dimension expression whose
evaluation — matching the semantic access function — decides broadcast per
environment rather than requiring a static size. -/
theorem gemm_broadcast_test_gt_one :
    (∀ (env : Nat → Int) (d : SymDim) (lv : Nat), lv ≠ 0 →
      (cSelect env d lv = 0 ↔ d.eval env ≤ 1)) ∧
    (∀ (env : Nat → Int) (lv : Nat), cSelect env (SymDim.lit 0) lv = 0) ∧
    (∀ (i : Nat), cAccessIdxE 1 (fun _ => SymDim.sym i)
        = [IdxE.selGT1 (SymDim.sym i) IdxE.vM (IdxE.litIdx 0)]) ∧
    (∀ (i n m k lv : Nat) (env : Nat → Int),
      (IdxE.eval env n m k
          (IdxE.selGT1 (SymDim.sym i) IdxE.vM (IdxE.litIdx 0))
        = if 1 < env i then m else 0)
        ∧ cSelect (fun _ => 2) (SymDim.sym i) lv = lv
        ∧ cSelect (fun _ => 1) (SymDim.sym i) lv = 0) ∧
    (∀ (env : Nat → Int) (cRank : Nat) (cDims : Nat → SymDim) (n m k : Nat),
      (cAccessIdxE cRank cDims).map (IdxE.eval env n m k)
        = cAccessFct env cRank cDims n m) := by
  refine ⟨fun env d lv hlv => ?_, fun env lv => ?_, fun i => rfl,
    fun i n m k lv env => ⟨?_, ?_, ?_⟩,
    fun env cRank cDims n m k => cAccessIdxE_eval env cRank cDims n m k⟩
  · unfold cSelect
    split_ifs with h
    · exact iff_of_false hlv (by omega)
    · exact iff_of_true rfl (by omega)
  · norm_num [cSelect, SymDim.eval]
  · simp [IdxE.eval, SymDim.eval]
  · norm_num [cSelect, SymDim.eval]
  · norm_num [cSelect, SymDim.eval]

/-- Witness for C9: a size-0 literal dimension with loop index 4 is
classified as broadcast (access index 0). -/
theorem gemm_broadcast_test_gt_one_witness :
    cSelect exEnv (SymDim.lit 0) 4 = 0 ↔ (SymDim.lit 0).eval exEnv ≤ 1 :=
  gemm_broadcast_test_gt_one.1 exEnv (SymDim.lit 0) 4 (by decide)

end GemmLowering
